import Mathlib

/-!
Verification of the core logic of `aws-cli-federator` (`main.go`):
account lookup (`matchAccount`), role resolution (the `assume_role` /
single-role / interactive-menu block of `main`), and the credential
upsert (`WriteAWSCredentials`) over an ini-style document.

The ini document is modelled as a list of named sections, each a list of
key/value pairs, with the operations of the external ini library that
`main.go` uses (`GetSection`, `NewSection`, `NewKey`, `SaveTo`) given
their documented semantics: `GetSection` finds the first section with a
matching name, `NewSection` appends an empty section, `NewKey` overwrites
the value of an existing key in place or appends a new one, and `SaveTo`
replaces the whole on-disk document.
-/

/-- A key/value entry of an ini section. -/
structure KV where
  key : String
  value : String
  deriving Repr, DecidableEq

/-- A named section of an ini document. -/
structure INISection where
  name : String
  keys : List KV
  deriving Repr, DecidableEq

/-- An ini document: an ordered list of named sections. -/
structure INIFile where
  sections : List INISection
  deriving Repr, DecidableEq

/-- `GetSection`: first section with the given name, if any. -/
def getSection (f : INIFile) (n : String) : Option INISection :=
  f.sections.find? (fun s => s.name == n)

/-- `NewSection`: append an empty section with the given name. -/
def newSection (f : INIFile) (n : String) : INIFile :=
  ⟨f.sections ++ [⟨n, []⟩]⟩

/-- `NewKey` on a section's entry list: overwrite the value of the first
entry with the given key, or append a new entry when absent. -/
def setKeyList : List KV → String → String → List KV
  | [], k, v => [⟨k, v⟩]
  | kv :: rest, k, v =>
      if kv.key == k then ⟨k, v⟩ :: rest else kv :: setKeyList rest k v

/-- Apply `g` to the first section with name `n`, leaving the rest alone
(the section obtained from `GetSection` is mutated through its pointer). -/
def updateFirstSection : List INISection → String → (INISection → INISection) → List INISection
  | [], _, _ => []
  | s :: rest, n, g =>
      if s.name == n then g s :: rest else s :: updateFirstSection rest n g

/-- `prof.NewKey k v` where `prof` is the first section named `n` of `f`. -/
def fileSetKey (f : INIFile) (n k v : String) : INIFile :=
  ⟨updateFirstSection f.sections n (fun s => ⟨s.name, setKeyList s.keys k v⟩)⟩

/-- Value of key `k` in the first section named `n`, if both exist. -/
def lookupKey (f : INIFile) (n k : String) : Option String :=
  (getSection f n).bind (fun s => (s.keys.find? (fun kv => kv.key == k)).map (fun kv => kv.value))

/-- Credentials issued by the backend (`federator.Credentials`): the three
secret strings persisted by `WriteAWSCredentials`. -/
structure Credentials where
  AccessKeyId : String
  SecretAccessKey : String
  SessionToken : String
  deriving Repr, DecidableEq

/-- The `GetSection`-else-`NewSection` step of `WriteAWSCredentials`
(main.go:247-251): create the profile section only when it is absent. -/
def ensureSection (cfg : INIFile) (p : String) : INIFile :=
  if (getSection cfg p).isSome then cfg else newSection cfg p

/-- The in-memory part of `WriteAWSCredentials` (main.go:247-271): ensure a
section named `p` exists, then `NewKey` the three managed keys into it. -/
def upsertCreds (cfg : INIFile) (p : String) (cred : Credentials) : INIFile :=
  fileSetKey (fileSetKey (fileSetKey (ensureSection cfg p) p "aws_access_key_id" cred.AccessKeyId)
      p "aws_secret_access_key" cred.SecretAccessKey)
    p "aws_session_token" cred.SessionToken

/-- `WriteAWSCredentials` (main.go:233-278) acting on the on-disk document
(`none` = the credentials file does not exist / fails to load). The single
disk write is the final `SaveTo`; the external library's `SaveTo` is
modelled as whole-document replacement that either succeeds or fails
leaving the previous content (`saveOk` selects which). All error returns
of the Go function before `SaveTo` happen before any disk write. -/
def writeAWSCredentials (cred : Credentials) (p : String) (saveOk : Bool)
    (disk : Option INIFile) : Except String Unit × Option INIFile :=
  match disk with
  | none => (Except.error "load failure", none)
  | some cfg =>
      let cfg1 := upsertCreds cfg p cred
      if saveOk then (Except.ok (), some cfg1)
      else (Except.error "Unable to save configuration to disk", some cfg)

/-- `matchAccount` (main.go:77-85): scan all sections for one whose name
equals the requested account name; return a zero section and `false` when
none matches. -/
def matchAccount (cfg : INIFile) (account : String) : INISection × Bool :=
  match cfg.sections.find? (fun s => s.name == account) with
  | some s => (s, true)
  | none => (⟨"", []⟩, false)

/-- An AWS role as handed back by the backend. `federator.Role` is a string
type holding the role ARN (main.go compares it to `""` and converts it with
`string(r)`). -/
abbrev Role := String

/-- Split a character list at every occurrence of `sep`; `acc` holds the
characters of the current field in reverse. -/
def splitChars (sep : Char) : List Char → List Char → List String
  | acc, [] => [String.mk acc.reverse]
  | acc, c :: cs =>
      if c == sep then String.mk acc.reverse :: splitChars sep [] cs
      else splitChars sep (c :: acc) cs

/-- Modelled from the spec: `Role.AccountId` of the `federator` package is
not under `src/`; per the spec a role is an ARN of the form
`arn:aws:iam::<account-id>:role/<role-name>`, and `AccountId` returns the
account-id field (the fifth colon-separated field). -/
def roleAccountId (r : Role) : String :=
  (splitChars ':' [] r.data).getD 4 ""

/-- Modelled from the spec: `Role.RoleName` of the `federator` package is
not under `src/`; per the spec it returns the `<role-name>` part after
`:role/`, i.e. the final colon-separated field with its `role/` marker
stripped. -/
def roleRoleName (r : Role) : String :=
  String.mk ((((splitChars ':' [] r.data).getD 5 "").data).drop 5)

/-- Modelled from the spec: `Role.RoleArn` is the identity on the ARN. -/
def roleArn (r : Role) : String := r

/-- Outcomes of the role-selection block of `main` (main.go:164-213).
`invalidSelection` is the fatal "Invalid selection" / out-of-range exit,
`roleNotFound` the fatal "Unable to find role" exit, and `panic` a Go
runtime panic from indexing the role slice out of bounds. -/
inductive ResolveErr where
  | roleNotFound
  | invalidSelection
  | panic
  deriving Repr, DecidableEq

/-- Accumulate decimal digits; any non-digit character makes the parse
fail. -/
def parseDigits : List Char → Nat → Option Nat
  | [], acc => some acc
  | c :: cs, acc =>
      if c.isDigit then parseDigits cs (acc * 10 + (c.toNat - 48)) else none

/-- `fmt.Scanf` with format `%d` on one interactive token: an optional
minus sign followed by at least one decimal digit parses to that integer;
anything else is not parseable as an integer. -/
def parseSelection (s : String) : Option Int :=
  match s.data with
  | [] => none
  | '-' :: ds =>
      if ds.isEmpty then none
      else (parseDigits ds 0).map (fun n => -(n : Int))
  | ds => (parseDigits ds 0).map (fun n => (n : Int))

/-- The interactive read-and-index part of `main` (main.go:196-211): a
parse failure or a selection strictly greater than `len(roles)+1` exits
with an invalid-selection error; otherwise the code evaluates
`roles[i-1]`, which panics when `i-1` is outside the slice bounds. -/
def interactiveSelect (roles : List Role) (inp : Option Int) : Except ResolveErr Role :=
  match inp with
  | none => Except.error ResolveErr.invalidSelection
  | some i =>
      if i > (roles.length : Int) + 1 then Except.error ResolveErr.invalidSelection
      else if i - 1 < 0 then Except.error ResolveErr.panic
      else
        match roles.get? (i - 1).toNat with
        | some r => Except.ok r
        | none => Except.error ResolveErr.panic

/-- Value lookup in the `account_map` section (`HasKey` guarding
`Key(...).String()`). -/
def accountMapLookup (m : INISection) (k : String) : Option String :=
  (m.keys.find? (fun kv => kv.key == k)).map (fun kv => kv.value)

/-- The numbered menu printed before the interactive prompt
(main.go:181-195): 1-based indices in role order; when the `account_map`
section exists and has the role's account id, the friendly-name form is
printed, otherwise the raw ARN. -/
def menuLines (roles : List Role) (accountMap : Option INISection) : List String :=
  match accountMap with
  | some m =>
      roles.enum.map (fun p =>
        match accountMapLookup m (roleAccountId p.2) with
        | some an => toString (p.1 + 1) ++ ") " ++ an ++ ":role/" ++ roleRoleName p.2
        | none => toString (p.1 + 1) ++ ") " ++ roleArn p.2)
  | none =>
      roles.enum.map (fun p => toString (p.1 + 1) ++ ") " ++ roleArn p.2)

/-- The whole role-selection block of `main` (main.go:164-213). Returns the
outcome, the lines printed to the terminal, and whether a line of
interactive input was read. When `assume_role` is configured the first
role equal to it is kept in `roleToAssume`, whose zero value `""` then
doubles as the not-found sentinel. -/
def resolveRole (assumeRole : Option String) (roles : List Role)
    (accountMap : Option INISection) (inp : Option Int) :
    Except ResolveErr Role × List String × Bool :=
  match assumeRole with
  | some ar =>
      let roleToAssume := ((roles.find? (fun r => ar == r)).getD "")
      if roleToAssume == "" then (Except.error ResolveErr.roleNotFound, [], false)
      else (Except.ok roleToAssume, [], false)
  | none =>
      match roles with
      | [r] => (Except.ok r, [], false)
      | _ => (interactiveSelect roles inp, menuLines roles accountMap, true)

/-- The role list `main` continues with after `aws.GetRoles()`
(main.go:159-162): the retrieval error is printed but execution falls
through with the nil slice. -/
def rolesAfterRetrieval : Except String (List Role) → List Role
  | Except.ok rs => rs
  | Except.error _ => []

section ResolverLemmas

lemma find?_beq_self_of_mem (ar : String) (roles : List Role) (h : ar ∈ roles) :
    roles.find? (fun r => ar == r) = some ar := by
  induction roles with
  | nil => cases h
  | cons r rest ih =>
      by_cases hr : ar = r
      · subst hr
        exact List.find?_cons_of_pos _ (by simp)
      · rw [List.find?_cons_of_neg _ (by simp [hr])]
        exact ih (List.mem_of_ne_of_mem hr h)

lemma find?_beq_none_of_not_mem (ar : String) (roles : List Role) (h : ar ∉ roles) :
    roles.find? (fun r => ar == r) = none := by
  refine List.find?_eq_none.mpr (fun x hx hbeq => h ?_)
  have hax : ar = x := by simpa using hbeq
  exact hax ▸ hx

lemma interactiveSelect_some_eq (roles : List Role) (i : Int) :
    interactiveSelect roles (some i) =
      if (roles.length : Int) + 1 < i then Except.error ResolveErr.invalidSelection
      else if h : 0 ≤ i - 1 ∧ (i - 1).toNat < roles.length
      then Except.ok (roles.get ⟨(i - 1).toNat, h.2⟩)
      else Except.error ResolveErr.panic := by
  have hred : interactiveSelect roles (some i) =
      (if (roles.length : Int) + 1 < i then Except.error ResolveErr.invalidSelection
       else if i - 1 < 0 then Except.error ResolveErr.panic
       else match roles.get? (i - 1).toNat with
         | some r => Except.ok r
         | none => Except.error ResolveErr.panic) := rfl
  rw [hred]
  by_cases h1 : (roles.length : Int) + 1 < i
  · rw [if_pos h1, if_pos h1]
  · rw [if_neg h1, if_neg h1]
    by_cases h2 : i - 1 < 0
    · rw [if_pos h2, dif_neg (fun hc => absurd hc.1 (by omega))]
    · rw [if_neg h2]
      by_cases h3 : (i - 1).toNat < roles.length
      · rw [List.get?_eq_get h3, dif_pos ⟨by omega, h3⟩]
      · rw [List.get?_eq_none.mpr (by omega), dif_neg (fun hc => h3 hc.2)]

end ResolverLemmas

/-- C3 (amended): with `assume_role` configured to a non-empty value, a role
whose ARN equals it is returned as-is, with no menu printed and no input
read; when no role matches, resolution fails with the role-not-found error,
again never reaching the menu or the prompt. (The non-emptiness proviso is
forced by the sentinel in main.go:172: a matched empty-string role is
indistinguishable from the `roleToAssume` zero value.) -/
theorem assume_role_resolution (ar : String) (roles : List Role)
    (m : Option INISection) (inp : Option Int) :
    (ar ≠ "" → ar ∈ roles →
      resolveRole (some ar) roles m inp = (Except.ok ar, [], false)) ∧
    (ar ∉ roles →
      resolveRole (some ar) roles m inp = (Except.error ResolveErr.roleNotFound, [], false)) := by
  constructor
  · intro hne hmem
    have hfind := find?_beq_self_of_mem ar roles hmem
    simp [resolveRole, hfind, hne]
  · intro hnm
    have hfind := find?_beq_none_of_not_mem ar roles hnm
    simp [resolveRole, hfind]

/-- C3 (counterexample): the role set contains a role whose ARN exactly
equals the configured `assume_role` value (both empty), yet resolution
reports role-not-found instead of returning that role. -/
theorem assume_role_resolution_cex :
    ("" : Role) ∈ ([""] : List Role) ∧
    resolveRole (some "") [""] none none =
      (Except.error ResolveErr.roleNotFound, [], false) ∧
    (Except.error ResolveErr.roleNotFound : Except ResolveErr Role) ≠ Except.ok "" :=
  ⟨by decide, rfl, fun hcontra => nomatch hcontra⟩

/-- C3 (witness): amended theorem applied at `assume_role = "x"` present in
a two-role set and at `assume_role = "z"` absent from it. -/
theorem assume_role_resolution_witness :
    resolveRole (some "x") ["y", "x"] none none = (Except.ok "x", [], false) ∧
    resolveRole (some "z") ["y", "x"] none none =
      (Except.error ResolveErr.roleNotFound, [], false) :=
  ⟨(assume_role_resolution "x" ["y", "x"] none none).1 (by decide) (by decide),
   (assume_role_resolution "z" ["y", "x"] none none).2 (by decide)⟩

/-- C4: with roles `[A, B, C]`, interactive input `"2"` selects `B` and
input `"x"` fails with the invalid-selection error, as the claim says; but
input `"0"` passes the upper-bound-only check and the code then indexes
`roles[-1]`, a runtime panic, not an invalid-selection failure. -/
theorem interactive_selection_inputs :
    (resolveRole none ["A", "B", "C"] none (parseSelection "2")).1 = Except.ok "B" ∧
    (resolveRole none ["A", "B", "C"] none (parseSelection "x")).1 =
      Except.error ResolveErr.invalidSelection ∧
    (resolveRole none ["A", "B", "C"] none (parseSelection "0")).1 =
      Except.error ResolveErr.panic :=
  ⟨rfl, rfl, rfl⟩

/-- C5: the interactive bounds check rejects exactly the integer selections
strictly greater than `len(roles)+1` and imposes no lower bound, so for any
non-empty role list the accepted inputs `0`, any negative value, and
`len(roles)+1` all drive `roles[i-1]` out of bounds (a panic). -/
theorem bounds_check_not_total (roles : List Role) (_hne : roles ≠ []) (i : Int) :
    (interactiveSelect roles (some i) = Except.error ResolveErr.invalidSelection ↔
      (roles.length : Int) + 1 < i) ∧
    ((i ≤ 0 ∨ i = (roles.length : Int) + 1) →
      interactiveSelect roles (some i) = Except.error ResolveErr.panic) := by
  constructor
  · rw [interactiveSelect_some_eq]
    by_cases h1 : (roles.length : Int) + 1 < i
    · simp [h1]
    · rw [if_neg h1]
      by_cases h2 : 0 ≤ i - 1 ∧ (i - 1).toNat < roles.length
      · rw [dif_pos h2]
        exact iff_of_false (fun hc => nomatch hc) h1
      · rw [dif_neg h2]
        exact iff_of_false (fun hc => nomatch hc) h1
  · intro h
    rw [interactiveSelect_some_eq,
      if_neg (show ¬ ((roles.length : Int) + 1 < i) by omega),
      dif_neg (show ¬ (0 ≤ i - 1 ∧ (i - 1).toNat < roles.length) by omega)]

/-- C5 (witness): with the one-role list `["r"]`, the accepted inputs `0`
and `len+1 = 2` both produce the out-of-bounds panic. -/
theorem bounds_check_not_total_witness :
    interactiveSelect ["r"] (some 0) = Except.error ResolveErr.panic ∧
    interactiveSelect ["r"] (some 2) = Except.error ResolveErr.panic :=
  ⟨(bounds_check_not_total ["r"] (by decide) 0).2 (Or.inl (by decide)),
   (bounds_check_not_total ["r"] (by decide) 2).2 (Or.inr (by decide))⟩

/-- C6: with no `assume_role` configured and exactly one role returned by
the backend, resolution returns that role, prints no menu line, and reads
no interactive input. -/
theorem single_role_no_prompt (r : Role) (m : Option INISection) (inp : Option Int) :
    resolveRole none [r] m inp = (Except.ok r, [], false) :=
  rfl

/-- C8: every role is printed with a 1-based index in the backend's
iteration order; a role whose account id is a key of the account map is
shown as `<index>) <friendly-name>:role/<role-name>`, and a role whose
account id is absent from the map — or any role when no `account_map`
section exists — is shown as `<index>) <full-arn>`. -/
theorem menu_display (roles : List Role) (m : Option INISection) (n : Nat)
    (h : n < roles.length) :
    (menuLines roles m).length = roles.length ∧
    (menuLines roles m).get? n = some
      (match m.bind (fun mm => accountMapLookup mm (roleAccountId (roles.get ⟨n, h⟩))) with
       | some an => toString (n + 1) ++ ") " ++ an ++ ":role/" ++ roleRoleName (roles.get ⟨n, h⟩)
       | none => toString (n + 1) ++ ") " ++ roleArn (roles.get ⟨n, h⟩)) := by
  have hg : roles.enum.get? n = some (n, roles.get ⟨n, h⟩) := by
    rw [List.get?_eq_getElem?, List.enum_eq_enumFrom, List.getElem?_enumFrom,
      ← List.get?_eq_getElem?, List.get?_eq_get h]
    simp
  cases m with
  | none =>
      refine ⟨by simp [menuLines], ?_⟩
      simp only [menuLines, List.get?_map, hg, Option.map_some', Option.none_bind]
  | some mm =>
      refine ⟨by simp [menuLines], ?_⟩
      simp only [menuLines, List.get?_map, hg, Option.map_some', Option.some_bind]

/-- C8 (witness): the spec's end-to-end example, with the account map
labelling account `111111111111` as `Acme-Prod`: the first menu line is
`1) Acme-Prod:role/Admin`, and without a map it is the raw ARN. -/
theorem menu_display_witness :
    (menuLines
        ["arn:aws:iam::111111111111:role/Admin", "arn:aws:iam::111111111111:role/ReadOnly"]
        (some ⟨"account_map", [⟨"111111111111", "Acme-Prod"⟩]⟩)).get? 0 =
      some "1) Acme-Prod:role/Admin" ∧
    (menuLines ["arn:aws:iam::111111111111:role/Admin"] none).get? 0 =
      some "1) arn:aws:iam::111111111111:role/Admin" := by
  constructor
  · have h := (menu_display
      ["arn:aws:iam::111111111111:role/Admin", "arn:aws:iam::111111111111:role/ReadOnly"]
      (some ⟨"account_map", [⟨"111111111111", "Acme-Prod"⟩]⟩) 0 (by decide)).2
    exact h.trans (by rfl)
  · have h := (menu_display ["arn:aws:iam::111111111111:role/Admin"] none 0 (by decide)).2
    exact h.trans (by rfl)

/-- C9: `matchAccount` returns not-found (and no failure — it is a total
function) for every account name that is not the name of any section, and
any found section was located by exact, case-sensitive string equality on
its name. -/
theorem matchAccount_spec (cfg : INIFile) (account : String) :
    ((∀ s ∈ cfg.sections, s.name ≠ account) → matchAccount cfg account = (⟨"", []⟩, false)) ∧
    ((∃ s ∈ cfg.sections, s.name = account) → (matchAccount cfg account).2 = true) ∧
    (∀ s b, matchAccount cfg account = (s, b) → b = true →
      s.name = account ∧ s ∈ cfg.sections) := by
  refine ⟨?_, ?_, ?_⟩
  · intro hall
    have hfind : cfg.sections.find? (fun s => s.name == account) = none :=
      List.find?_eq_none.mpr (fun x hx hbeq => hall x hx (by simpa using hbeq))
    simp [matchAccount, hfind]
  · rintro ⟨s, hs, hname⟩
    cases hfind : cfg.sections.find? (fun s => s.name == account) with
    | none =>
        exact absurd (List.find?_eq_none.mp hfind s hs) (by simp [hname])
    | some s0 =>
        simp [matchAccount, hfind]
  · intro s b heq hb
    cases hfind : cfg.sections.find? (fun s => s.name == account) with
    | none =>
        rw [matchAccount, hfind] at heq
        cases heq
        cases hb
    | some s0 =>
        rw [matchAccount, hfind] at heq
        cases heq
        exact ⟨by simpa using List.find?_some hfind, List.mem_of_find?_eq_some hfind⟩

/-- C9 (witness): `matchAccount` applied where the name differs only in
case (not found), and where it matches exactly (found). -/
theorem matchAccount_spec_witness :
    matchAccount ⟨[⟨"acme", [⟨"sp_identity_url", "https://idp.example/sso"⟩]⟩]⟩ "Acme" =
      (⟨"", []⟩, false) ∧
    (matchAccount ⟨[⟨"acme", [⟨"sp_identity_url", "https://idp.example/sso"⟩]⟩]⟩ "acme").2 =
      true :=
  ⟨(matchAccount_spec ⟨[⟨"acme", [⟨"sp_identity_url", "https://idp.example/sso"⟩]⟩]⟩ "Acme").1
      (by decide),
   (matchAccount_spec ⟨[⟨"acme", [⟨"sp_identity_url", "https://idp.example/sso"⟩]⟩]⟩ "acme").2.1
      ⟨⟨"acme", [⟨"sp_identity_url", "https://idp.example/sso"⟩]⟩, by decide, rfl⟩⟩

/-- C10: after a role-retrieval failure execution continues with the empty
role set; downstream, a configured `assume_role` then correctly fails with
role-not-found, as the claim says — but the interactive path is not
non-crashing: the accepted input `1` (the low end of the range the code
itself advertises) indexes the empty slice and panics. -/
theorem empty_roles_after_retrieval_failure (msg : String) :
    rolesAfterRetrieval (Except.error msg) = [] ∧
    (∀ ar m inp, (resolveRole (some ar) (rolesAfterRetrieval (Except.error msg)) m inp).1 =
      Except.error ResolveErr.roleNotFound) ∧
    (resolveRole none (rolesAfterRetrieval (Except.error msg)) none (parseSelection "1")).1 =
      Except.error ResolveErr.panic :=
  ⟨rfl, fun _ _ _ => rfl, rfl⟩

section UpsertLemmas

lemma name_updateFirstSection (l : List INISection) (n : String)
    (g : INISection → INISection) (hg : ∀ s, (g s).name = s.name) :
    (updateFirstSection l n g).map (fun s => s.name) = l.map (fun s => s.name) := by
  induction l with
  | nil => rfl
  | cons s rest ih =>
      by_cases hs : s.name = n
      · simp [updateFirstSection, hs, hg]
      · simp [updateFirstSection, hs, ih]

lemma filter_updateFirstSection (l : List INISection) (n : String)
    (g : INISection → INISection) (hg : ∀ s, (g s).name = s.name) :
    (updateFirstSection l n g).filter (fun s => !(s.name == n)) =
      l.filter (fun s => !(s.name == n)) := by
  induction l with
  | nil => rfl
  | cons s rest ih =>
      by_cases hs : s.name = n
      · simp [updateFirstSection, hs, hg]
      · simp [updateFirstSection, hs, ih]

lemma find?_updateFirstSection_ne (l : List INISection) (n : String)
    (g : INISection → INISection) (hg : ∀ s, (g s).name = s.name)
    (q : String) (hq : q ≠ n) :
    (updateFirstSection l n g).find? (fun s => s.name == q) =
      l.find? (fun s => s.name == q) := by
  induction l with
  | nil => rfl
  | cons s rest ih =>
      have hred : updateFirstSection (s :: rest) n g =
          if s.name == n then g s :: rest else s :: updateFirstSection rest n g := rfl
      rw [hred]
      by_cases hs : s.name = n
      · rw [if_pos (by simp [hs])]
        rw [List.find?_cons_of_neg _ (by simp [hg, hs, Ne.symm hq]),
          List.find?_cons_of_neg _ (by simp [hs, Ne.symm hq])]
      · rw [if_neg (by simp [hs])]
        by_cases hsq : s.name = q
        · rw [List.find?_cons_of_pos _ (by simp [hsq]),
            List.find?_cons_of_pos _ (by simp [hsq])]
        · rw [List.find?_cons_of_neg _ (by simp [hsq]),
            List.find?_cons_of_neg _ (by simp [hsq]), ih]

lemma find?_updateFirstSection_self (l : List INISection) (n : String)
    (g : INISection → INISection) (hg : ∀ s, (g s).name = s.name)
    (s0 : INISection) (hfind : l.find? (fun s => s.name == n) = some s0) :
    (updateFirstSection l n g).find? (fun s => s.name == n) = some (g s0) := by
  induction l with
  | nil => cases hfind
  | cons s rest ih =>
      have hred : updateFirstSection (s :: rest) n g =
          if s.name == n then g s :: rest else s :: updateFirstSection rest n g := rfl
      rw [hred]
      by_cases hs : s.name = n
      · rw [List.find?_cons_of_pos _ (by simp [hs])] at hfind
        cases hfind
        rw [if_pos (by simp [hs])]
        exact List.find?_cons_of_pos _ (by simp [hg, hs])
      · rw [List.find?_cons_of_neg _ (by simp [hs])] at hfind
        rw [if_neg (by simp [hs]), List.find?_cons_of_neg _ (by simp [hs])]
        exact ih hfind

lemma mem_updateFirstSection (l : List INISection) (n : String)
    (g : INISection → INISection) (s : INISection)
    (hs : s ∈ updateFirstSection l n g) :
    s ∈ l ∨ ∃ s' ∈ l, s = g s' := by
  induction l with
  | nil => cases hs
  | cons s1 rest ih =>
      have hred : updateFirstSection (s1 :: rest) n g =
          if s1.name == n then g s1 :: rest else s1 :: updateFirstSection rest n g := rfl
      rw [hred] at hs
      by_cases h1 : s1.name = n
      · rw [if_pos (by simp [h1])] at hs
        rcases List.mem_cons.mp hs with h | h
        · exact Or.inr ⟨s1, List.mem_cons_self _ _, h⟩
        · exact Or.inl (List.mem_cons_of_mem _ h)
      · rw [if_neg (by simp [h1])] at hs
        rcases List.mem_cons.mp hs with h | h
        · exact Or.inl (h ▸ List.mem_cons_self _ _)
        · rcases ih h with h' | ⟨s', hs', heq⟩
          · exact Or.inl (List.mem_cons_of_mem _ h')
          · exact Or.inr ⟨s', List.mem_cons_of_mem _ hs', heq⟩

lemma find?_setKeyList_self (l : List KV) (k v : String) :
    (setKeyList l k v).find? (fun kv => kv.key == k) = some ⟨k, v⟩ := by
  induction l with
  | nil => simp [setKeyList]
  | cons kv rest ih =>
      by_cases hk : kv.key = k
      · simp [setKeyList, hk]
      · simp [setKeyList, hk, ih]

lemma find?_setKeyList_ne (l : List KV) (k v q : String) (hq : q ≠ k) :
    (setKeyList l k v).find? (fun kv => kv.key == q) = l.find? (fun kv => kv.key == q) := by
  induction l with
  | nil => simp [setKeyList, Ne.symm hq]
  | cons kv rest ih =>
      by_cases hk : kv.key = k
      · simp [setKeyList, hk, Ne.symm hq]
      · have hred : setKeyList (kv :: rest) k v = kv :: setKeyList rest k v := by
          simp [setKeyList, hk]
        rw [hred]
        by_cases hkq : kv.key = q
        · rw [List.find?_cons_of_pos _ (by simp [hkq]),
            List.find?_cons_of_pos _ (by simp [hkq])]
        · rw [List.find?_cons_of_neg _ (by simp [hkq]),
            List.find?_cons_of_neg _ (by simp [hkq]), ih]

lemma map_key_setKeyList (l : List KV) (k v : String) :
    (setKeyList l k v).map (fun kv => kv.key) =
      if k ∈ l.map (fun kv => kv.key) then l.map (fun kv => kv.key)
      else l.map (fun kv => kv.key) ++ [k] := by
  induction l with
  | nil => simp [setKeyList]
  | cons kv rest ih =>
      by_cases hk : kv.key = k
      · simp [setKeyList, hk]
      · by_cases hmem : k ∈ rest.map (fun kv => kv.key)
        · simp [setKeyList, hk, hmem, ih, Ne.symm hk]
        · simp [setKeyList, hk, hmem, ih, Ne.symm hk]

lemma nodup_keys_setKeyList (l : List KV) (k v : String)
    (h : (l.map (fun kv => kv.key)).Nodup) :
    ((setKeyList l k v).map (fun kv => kv.key)).Nodup := by
  rw [map_key_setKeyList]
  by_cases hmem : k ∈ l.map (fun kv => kv.key)
  · rwa [if_pos hmem]
  · rw [if_neg hmem]
    rw [List.nodup_append]
    exact ⟨h, List.nodup_singleton _, List.disjoint_singleton.mpr hmem⟩

lemma getSection_ensureSection_self (cfg : INIFile) (p : String) :
    ∃ s0, getSection (ensureSection cfg p) p = some s0 ∧ s0.name = p := by
  unfold ensureSection
  by_cases hs : (getSection cfg p).isSome
  · obtain ⟨s0, hfind⟩ := Option.isSome_iff_exists.mp hs
    refine ⟨s0, by rwa [if_pos hs], ?_⟩
    simpa using List.find?_some hfind
  · rw [if_neg hs]
    have hnone : cfg.sections.find? (fun s => s.name == p) = none :=
      Option.not_isSome_iff_eq_none.mp hs
    refine ⟨⟨p, []⟩, ?_, rfl⟩
    show List.find? (fun s : INISection => s.name == p)
      (cfg.sections ++ [⟨p, []⟩]) = some ⟨p, []⟩
    rw [List.find?_append, hnone]
    simp

lemma getSection_fileSetKey_self (f : INIFile) (n k v : String) (s0 : INISection)
    (h : getSection f n = some s0) :
    getSection (fileSetKey f n k v) n = some ⟨s0.name, setKeyList s0.keys k v⟩ :=
  find?_updateFirstSection_self f.sections n
    (fun s => ⟨s.name, setKeyList s.keys k v⟩) (fun _ => rfl) s0 h

lemma getSection_fileSetKey_ne (f : INIFile) (n k v q : String) (hq : q ≠ n) :
    getSection (fileSetKey f n k v) q = getSection f q :=
  find?_updateFirstSection_ne f.sections n
    (fun s => ⟨s.name, setKeyList s.keys k v⟩) (fun _ => rfl) q hq

lemma upsert_section_structure (cfg : INIFile) (p : String) (cred : Credentials) :
    ∃ s0, getSection (ensureSection cfg p) p = some s0 ∧ s0.name = p ∧
      getSection (upsertCreds cfg p cred) p =
        some ⟨p, setKeyList (setKeyList (setKeyList s0.keys "aws_access_key_id" cred.AccessKeyId)
          "aws_secret_access_key" cred.SecretAccessKey) "aws_session_token" cred.SessionToken⟩ := by
  obtain ⟨s0, hs0, hname⟩ := getSection_ensureSection_self cfg p
  refine ⟨s0, hs0, hname, ?_⟩
  have h1 := getSection_fileSetKey_self (ensureSection cfg p) p
    "aws_access_key_id" cred.AccessKeyId s0 hs0
  have h2 := getSection_fileSetKey_self _ p "aws_secret_access_key" cred.SecretAccessKey _ h1
  have h3 := getSection_fileSetKey_self _ p "aws_session_token" cred.SessionToken _ h2
  rw [show (upsertCreds cfg p cred) =
    fileSetKey (fileSetKey (fileSetKey (ensureSection cfg p) p "aws_access_key_id"
      cred.AccessKeyId) p "aws_secret_access_key" cred.SecretAccessKey)
      p "aws_session_token" cred.SessionToken from rfl, h3, hname]

end UpsertLemmas

section UpsertLemmas2

lemma lookupKey_upsertCreds_managed (cfg : INIFile) (p : String) (cred : Credentials) :
    lookupKey (upsertCreds cfg p cred) p "aws_access_key_id" = some cred.AccessKeyId ∧
    lookupKey (upsertCreds cfg p cred) p "aws_secret_access_key" = some cred.SecretAccessKey ∧
    lookupKey (upsertCreds cfg p cred) p "aws_session_token" = some cred.SessionToken := by
  obtain ⟨s0, hs0, hname, hsec⟩ := upsert_section_structure cfg p cred
  unfold lookupKey
  rw [hsec]
  simp only [Option.some_bind]
  refine ⟨?_, ?_, ?_⟩
  · rw [find?_setKeyList_ne _ _ _ _ (by decide), find?_setKeyList_ne _ _ _ _ (by decide),
      find?_setKeyList_self]
    rfl
  · rw [find?_setKeyList_ne _ _ _ _ (by decide), find?_setKeyList_self]
    rfl
  · rw [find?_setKeyList_self]
    rfl

lemma filter_upsertCreds (cfg : INIFile) (p : String) (cred : Credentials) :
    (upsertCreds cfg p cred).sections.filter (fun s => !(s.name == p)) =
      cfg.sections.filter (fun s => !(s.name == p)) := by
  show (updateFirstSection (updateFirstSection (updateFirstSection
      (ensureSection cfg p).sections p _) p _) p _).filter (fun s => !(s.name == p)) = _
  rw [filter_updateFirstSection _ p
      (fun s => ⟨s.name, setKeyList s.keys "aws_session_token" cred.SessionToken⟩)
      (fun _ => rfl),
    filter_updateFirstSection _ p
      (fun s => ⟨s.name, setKeyList s.keys "aws_secret_access_key" cred.SecretAccessKey⟩)
      (fun _ => rfl),
    filter_updateFirstSection _ p
      (fun s => ⟨s.name, setKeyList s.keys "aws_access_key_id" cred.AccessKeyId⟩)
      (fun _ => rfl)]
  unfold ensureSection
  by_cases hs : (getSection cfg p).isSome
  · rw [if_pos hs]
  · rw [if_neg hs]
    show List.filter (fun s : INISection => !(s.name == p))
      (cfg.sections ++ [⟨p, []⟩]) = _
    rw [List.filter_append]
    simp

lemma getSection_upsertCreds_ne (cfg : INIFile) (p : String) (cred : Credentials)
    (q : String) (hq : q ≠ p) :
    getSection (upsertCreds cfg p cred) q = getSection cfg q := by
  show getSection (fileSetKey (fileSetKey (fileSetKey (ensureSection cfg p)
    p "aws_access_key_id" cred.AccessKeyId) p "aws_secret_access_key" cred.SecretAccessKey)
    p "aws_session_token" cred.SessionToken) q = getSection cfg q
  rw [getSection_fileSetKey_ne _ _ _ _ _ hq, getSection_fileSetKey_ne _ _ _ _ _ hq,
    getSection_fileSetKey_ne _ _ _ _ _ hq]
  unfold ensureSection
  by_cases hs : (getSection cfg p).isSome
  · rw [if_pos hs]
  · rw [if_neg hs]
    show List.find? (fun s : INISection => s.name == q)
      (cfg.sections ++ [⟨p, []⟩]) = getSection cfg q
    rw [List.find?_append]
    have hlast : List.find? (fun s : INISection => s.name == q) [⟨p, []⟩] = none := by
      simp [Ne.symm hq]
    rw [hlast]
    simp [getSection]

lemma lookupKey_upsertCreds_foreign (cfg : INIFile) (p : String) (cred : Credentials)
    (k : String) (h1 : k ≠ "aws_access_key_id") (h2 : k ≠ "aws_secret_access_key")
    (h3 : k ≠ "aws_session_token") :
    lookupKey (upsertCreds cfg p cred) p k = lookupKey cfg p k := by
  obtain ⟨s0, hs0, hname, hsec⟩ := upsert_section_structure cfg p cred
  unfold lookupKey
  rw [hsec]
  simp only [Option.some_bind]
  rw [find?_setKeyList_ne _ _ _ _ h3, find?_setKeyList_ne _ _ _ _ h2,
    find?_setKeyList_ne _ _ _ _ h1]
  unfold ensureSection at hs0
  by_cases hsome : (getSection cfg p).isSome
  · rw [if_pos hsome] at hs0
    rw [hs0]
    rfl
  · rw [if_neg hsome] at hs0
    have hnone : getSection cfg p = none := Option.not_isSome_iff_eq_none.mp hsome
    have hnone' : cfg.sections.find? (fun s => s.name == p) = none := hnone
    have hs0' : s0 = ⟨p, []⟩ := by
      have hfind : List.find? (fun s : INISection => s.name == p)
          (cfg.sections ++ [⟨p, []⟩]) = some s0 := hs0
      rw [List.find?_append, hnone'] at hfind
      simpa using hfind.symm
    rw [hs0', hnone]
    simp

end UpsertLemmas2

/-- Well-formedness invariant guaranteed by the ini loader: section names
are pairwise distinct (the loader merges duplicate sections) and so are the
key names inside each section (the loader keeps one entry per key). -/
abbrev WF (f : INIFile) : Prop :=
  (f.sections.map (fun s => s.name)).Nodup ∧
  ∀ s ∈ f.sections, (s.keys.map (fun kv => kv.key)).Nodup

section WFLemmas

lemma WF_fileSetKey (f : INIFile) (n k v : String) (h : WF f) : WF (fileSetKey f n k v) := by
  obtain ⟨hnames, hkeys⟩ := h
  constructor
  · rw [show (fileSetKey f n k v).sections =
      updateFirstSection f.sections n (fun s => ⟨s.name, setKeyList s.keys k v⟩) from rfl]
    rw [name_updateFirstSection f.sections n
      (fun s => ⟨s.name, setKeyList s.keys k v⟩) (fun _ => rfl)]
    exact hnames
  · intro s hs
    rcases mem_updateFirstSection f.sections n _ s hs with hmem | ⟨s', hs', heq⟩
    · exact hkeys s hmem
    · rw [heq]
      exact nodup_keys_setKeyList s'.keys k v (hkeys s' hs')

lemma WF_ensureSection (cfg : INIFile) (p : String) (h : WF cfg) : WF (ensureSection cfg p) := by
  unfold ensureSection
  by_cases hs : (getSection cfg p).isSome
  · rwa [if_pos hs]
  · rw [if_neg hs]
    have hnone : cfg.sections.find? (fun s => s.name == p) = none :=
      Option.not_isSome_iff_eq_none.mp hs
    have hp : p ∉ cfg.sections.map (fun s => s.name) := by
      intro hmem
      obtain ⟨s, hsmem, hname⟩ := List.mem_map.mp hmem
      have := List.find?_eq_none.mp hnone s hsmem
      simp [hname] at this
    constructor
    · rw [show (newSection cfg p).sections = cfg.sections ++ [⟨p, []⟩] from rfl,
        List.map_append, List.nodup_append]
      exact ⟨h.1, by simp, by simpa using hp⟩
    · intro s hsmem
      rcases List.mem_append.mp hsmem with h1 | h1
      · exact h.2 s h1
      · have hse : s = ⟨p, []⟩ := by simpa using h1
        rw [hse]
        simp

lemma WF_upsertCreds (cfg : INIFile) (p : String) (cred : Credentials) (h : WF cfg) :
    WF (upsertCreds cfg p cred) :=
  WF_fileSetKey _ _ _ _ (WF_fileSetKey _ _ _ _ (WF_fileSetKey _ _ _ _ (WF_ensureSection cfg p h)))

lemma count_sections_upsert (cfg : INIFile) (p : String) (cred : Credentials) (h : WF cfg) :
    (upsertCreds cfg p cred).sections.countP (fun s => s.name == p) = 1 := by
  have hwf := WF_upsertCreds cfg p cred h
  obtain ⟨s0, hs0, hname, hsec⟩ := upsert_section_structure cfg p cred
  have hmem : p ∈ (upsertCreds cfg p cred).sections.map (fun s => s.name) :=
    List.mem_map.mpr ⟨_, List.mem_of_find?_eq_some hsec, rfl⟩
  have hcount : (upsertCreds cfg p cred).sections.countP (fun s => s.name == p) =
      ((upsertCreds cfg p cred).sections.map (fun s => s.name)).count p := by
    rw [List.count_eq_countP, List.countP_map]
    rfl
  rw [hcount]
  exact List.count_eq_one_of_mem hwf.1 hmem

lemma count_key_of_nodup (ks : List KV) (k : String)
    (hnd : (ks.map (fun kv => kv.key)).Nodup)
    (hmem : (ks.find? (fun kv => kv.key == k)).isSome) :
    ks.countP (fun kv => kv.key == k) = 1 := by
  obtain ⟨kv0, hfind⟩ := Option.isSome_iff_exists.mp hmem
  have hk : kv0.key = k := by simpa using List.find?_some hfind
  have hmem' : k ∈ ks.map (fun kv => kv.key) :=
    List.mem_map.mpr ⟨kv0, List.mem_of_find?_eq_some hfind, hk⟩
  have hcount : ks.countP (fun kv => kv.key == k) =
      (ks.map (fun kv => kv.key)).count k := by
    rw [List.count_eq_countP, List.countP_map]
    rfl
  rw [hcount]
  exact List.count_eq_one_of_mem hnd hmem'

end WFLemmas

/-- C1: upserting the three managed credential keys into profile `p` leaves
the rest of the document untouched: the list of sections not named `p` is
unchanged, section lookup for any other name is unchanged, and any key of
the `p` section other than the three managed ones (e.g. `region`) keeps its
value. -/
theorem upsert_preserves_foreign (cfg : INIFile) (p : String) (cred : Credentials) :
    ((upsertCreds cfg p cred).sections.filter (fun s => !(s.name == p)) =
      cfg.sections.filter (fun s => !(s.name == p))) ∧
    (∀ q, q ≠ p → getSection (upsertCreds cfg p cred) q = getSection cfg q) ∧
    (∀ k, k ≠ "aws_access_key_id" → k ≠ "aws_secret_access_key" →
      k ≠ "aws_session_token" →
      lookupKey (upsertCreds cfg p cred) p k = lookupKey cfg p k) :=
  ⟨filter_upsertCreds cfg p cred,
   fun q hq => getSection_upsertCreds_ne cfg p cred q hq,
   fun k h1 h2 h3 => lookupKey_upsertCreds_foreign cfg p cred k h1 h2 h3⟩

/-- C1 (witness): writing to `"work"` in a document with a `region` key in
`"work"` and a second section `"other"`: `"other"` and `region` survive. -/
theorem upsert_preserves_foreign_witness :
    getSection (upsertCreds ⟨[⟨"work", [⟨"region", "us-east-1"⟩]⟩, ⟨"other", [⟨"a", "b"⟩]⟩]⟩
        "work" ⟨"AK", "SK", "TOK"⟩) "other" =
      getSection ⟨[⟨"work", [⟨"region", "us-east-1"⟩]⟩, ⟨"other", [⟨"a", "b"⟩]⟩]⟩ "other" ∧
    lookupKey (upsertCreds ⟨[⟨"work", [⟨"region", "us-east-1"⟩]⟩, ⟨"other", [⟨"a", "b"⟩]⟩]⟩
        "work" ⟨"AK", "SK", "TOK"⟩) "work" "region" =
      lookupKey ⟨[⟨"work", [⟨"region", "us-east-1"⟩]⟩, ⟨"other", [⟨"a", "b"⟩]⟩]⟩
        "work" "region" :=
  ⟨(upsert_preserves_foreign ⟨[⟨"work", [⟨"region", "us-east-1"⟩]⟩, ⟨"other", [⟨"a", "b"⟩]⟩]⟩
      "work" ⟨"AK", "SK", "TOK"⟩).2.1 "other" (by decide),
   (upsert_preserves_foreign ⟨[⟨"work", [⟨"region", "us-east-1"⟩]⟩, ⟨"other", [⟨"a", "b"⟩]⟩]⟩
      "work" ⟨"AK", "SK", "TOK"⟩).2.2 "region" (by decide) (by decide) (by decide)⟩

/-- C2: the credential write is atomic from the caller's perspective:
either it returns success and the on-disk document holds the profile with
the three fresh values, or it returns an error and the on-disk document is
exactly what it was before the call. -/
theorem write_credentials_atomic (cred : Credentials) (p : String) (saveOk : Bool)
    (disk : Option INIFile) :
    match writeAWSCredentials cred p saveOk disk with
    | (Except.ok _, diskAfter) => ∃ cfg1, diskAfter = some cfg1 ∧
        lookupKey cfg1 p "aws_access_key_id" = some cred.AccessKeyId ∧
        lookupKey cfg1 p "aws_secret_access_key" = some cred.SecretAccessKey ∧
        lookupKey cfg1 p "aws_session_token" = some cred.SessionToken
    | (Except.error _, diskAfter) => diskAfter = disk := by
  cases disk with
  | none => exact rfl
  | some cfg =>
      cases saveOk with
      | false => exact rfl
      | true =>
          show ∃ cfg1, some (upsertCreds cfg p cred) = some cfg1 ∧
            lookupKey cfg1 p "aws_access_key_id" = some cred.AccessKeyId ∧
            lookupKey cfg1 p "aws_secret_access_key" = some cred.SecretAccessKey ∧
            lookupKey cfg1 p "aws_session_token" = some cred.SessionToken
          exact ⟨upsertCreds cfg p cred, rfl,
            (lookupKey_upsertCreds_managed cfg p cred).1,
            (lookupKey_upsertCreds_managed cfg p cred).2.1,
            (lookupKey_upsertCreds_managed cfg p cred).2.2⟩

/-- C7: on a well-formed document (as the ini loader produces), upserting
twice into the same profile leaves exactly one section with that name,
holding the second write's values for the three managed keys, and each
managed key occurs exactly once in that section. -/
theorem upsert_twice_idempotent (cfg : INIFile) (p : String) (c1 c2 : Credentials)
    (h : WF cfg) :
    (upsertCreds (upsertCreds cfg p c1) p c2).sections.countP (fun s => s.name == p) = 1 ∧
    lookupKey (upsertCreds (upsertCreds cfg p c1) p c2) p "aws_access_key_id" =
      some c2.AccessKeyId ∧
    lookupKey (upsertCreds (upsertCreds cfg p c1) p c2) p "aws_secret_access_key" =
      some c2.SecretAccessKey ∧
    lookupKey (upsertCreds (upsertCreds cfg p c1) p c2) p "aws_session_token" =
      some c2.SessionToken ∧
    (∀ s, getSection (upsertCreds (upsertCreds cfg p c1) p c2) p = some s →
      s.keys.countP (fun kv => kv.key == "aws_access_key_id") = 1 ∧
      s.keys.countP (fun kv => kv.key == "aws_secret_access_key") = 1 ∧
      s.keys.countP (fun kv => kv.key == "aws_session_token") = 1) := by
  have h1 : WF (upsertCreds cfg p c1) := WF_upsertCreds _ _ _ h
  have h2 : WF (upsertCreds (upsertCreds cfg p c1) p c2) := WF_upsertCreds _ _ _ h1
  have hcount := count_sections_upsert (upsertCreds cfg p c1) p c2 h1
  have hlook := lookupKey_upsertCreds_managed (upsertCreds cfg p c1) p c2
  refine ⟨hcount, hlook.1, hlook.2.1, hlook.2.2, ?_⟩
  intro s hs
  have hnd : (s.keys.map (fun kv => kv.key)).Nodup :=
    h2.2 s (List.mem_of_find?_eq_some hs)
  have hb : ∀ k val,
      lookupKey (upsertCreds (upsertCreds cfg p c1) p c2) p k = some val →
      (s.keys.find? (fun kv => kv.key == k)).isSome := by
    intro k val hl
    unfold lookupKey at hl
    rw [show getSection (upsertCreds (upsertCreds cfg p c1) p c2) p = some s from hs] at hl
    simp only [Option.some_bind] at hl
    cases hf : s.keys.find? (fun kv => kv.key == k) with
    | none => rw [hf] at hl; cases hl
    | some _ => simp [hf]
  exact ⟨count_key_of_nodup _ _ hnd (hb _ _ hlook.1),
    count_key_of_nodup _ _ hnd (hb _ _ hlook.2.1),
    count_key_of_nodup _ _ hnd (hb _ _ hlook.2.2)⟩

/-- C7 (witness): two writes to `"work"` on a loader-produced document with
a pre-existing `region` key: one `"work"` section remains and the access
key holds the second value. -/
theorem upsert_twice_idempotent_witness :
    (upsertCreds (upsertCreds ⟨[⟨"work", [⟨"region", "us-east-1"⟩]⟩]⟩ "work"
        ⟨"A1", "S1", "T1"⟩) "work" ⟨"A2", "S2", "T2"⟩).sections.countP
      (fun s => s.name == "work") = 1 ∧
    lookupKey (upsertCreds (upsertCreds ⟨[⟨"work", [⟨"region", "us-east-1"⟩]⟩]⟩ "work"
        ⟨"A1", "S1", "T1"⟩) "work" ⟨"A2", "S2", "T2"⟩) "work" "aws_access_key_id" =
      some "A2" :=
  ⟨(upsert_twice_idempotent ⟨[⟨"work", [⟨"region", "us-east-1"⟩]⟩]⟩ "work"
      ⟨"A1", "S1", "T1"⟩ ⟨"A2", "S2", "T2"⟩ (by decide)).1,
   (upsert_twice_idempotent ⟨[⟨"work", [⟨"region", "us-east-1"⟩]⟩]⟩ "work"
      ⟨"A1", "S1", "T1"⟩ ⟨"A2", "S2", "T2"⟩ (by decide)).2.1⟩
